import Mathlib

/-
  Verification development for the TopicRNN model
  (src/library/models/topic_rnn.py).

  Shallow embedding conventions:
  - Tensors are rational-valued nested lists: a matrix is a list of rows,
    a rank-3 tensor a list of matrices.  Machine floats are modelled by
    rationals; external transcendental primitives of the tensor library
    (torch.exp, torch.log, torch.sqrt) are abstract function fields of a
    Prims structure, as are the external collaborators (embedder, RNN,
    feed-forward networks, the sequence cross-entropy of the framework,
    and the Gaussian noise stream).
  - Token indices are naturals; token strings are Lean strings.
  - Fallible code (the assertion in forward, the assertion in the
    stopless-namespace construction) returns Except.
-/

namespace TopicRnnModel

abbrev Token := String

abbrev Vec := List ℚ

abbrev Mat := List (List ℚ)

abbrev Ten3 := List (List (List ℚ))

/-- Hidden state of the recurrent encoder, threaded through BPTT chunks. -/
abbrev Hidden := Mat

/-- Dot product of two equally sized vectors. -/
def dot (a b : Vec) : ℚ :=
  (List.zipWith (fun x y => x * y) a b).sum

/-- Matrix times vector: one dot product per row. -/
def matvec (m : Mat) (v : Vec) : Vec :=
  m.map (fun row => dot row v)

/-- Row vector times matrix, as in torch.mm(theta, beta) for one row:
    entry j is the sum over k of v k times m k j. -/
def vecmat (v : Vec) (m : Mat) : Vec :=
  (List.range (m.headD []).length).map
    (fun j => (List.zipWith (fun c row => c * row.getD j 0) v m).sum)

/-- Elementwise combination of two equally shaped matrices. -/
def zipWith2d (f : ℚ → ℚ → ℚ) (a b : Mat) : Mat :=
  List.zipWith (List.zipWith f) a b

/-- Pointwise ternary zip of equally long vectors. -/
def zipWith3v (f : ℚ → ℚ → ℚ → ℚ) : Vec → Vec → Vec → Vec
  | a :: as, b :: bs, c :: cs => f a b c :: zipWith3v f as bs cs
  | _, _, _ => []

/-- Pointwise ternary zip of equally shaped matrices. -/
def zipWith3m (f : ℚ → ℚ → ℚ → ℚ) (a b c : Mat) : Mat :=
  match a, b, c with
  | ra :: as, rb :: bs, rc :: cs => zipWith3v f ra rb rc :: zipWith3m f as bs cs
  | _, _, _ => []

/-- Sum of all entries of a matrix, as torch.sum over all dimensions. -/
def sumMat (m : Mat) : ℚ :=
  (m.map List.sum).sum

/-- Total number of entries of a matrix, as Tensor.numel. -/
def numel (m : Mat) : ℕ :=
  (m.map List.length).sum

/-- Elementwise sum of two equally shaped rank-3 tensors. -/
def addTen3 (a b : Ten3) : Ten3 :=
  List.zipWith (zipWith2d (fun x y => x + y)) a b

/-- Float cast of a boolean tensor entry, as Tensor.float on a bool tensor. -/
def boolToQ (b : Bool) : ℚ :=
  if b then 1 else 0

/-
  Vocabulary model.  The AllenNLP Vocabulary is an external collaborator;
  it is modelled from the contract the spec states in section 4.1:
  tokenToIndex returns the OOV index if the token is absent from the
  namespace, indexToToken decodes an index, and a padded namespace is
  created holding the padding token at index 0 and the OOV token at
  index 1.  A namespace is a list of distinct tokens; the index of a
  token is its position.
-/

def DEFAULT_PADDING_TOKEN : Token := "@@PADDING@@"

def DEFAULT_OOV_TOKEN : Token := "@@UNKNOWN@@"

/-- Position of the first occurrence of a token in a namespace; equals the
    length of the namespace when the token is absent. -/
def idxOfTok : List Token → Token → ℕ
  | [], _ => 0
  | a :: l, t => if a = t then 0 else idxOfTok l t + 1

/-- Index lookup that distinguishes absence, modelling a Python dict access
    that raises KeyError when the key is missing. -/
def lookupIndex : List Token → Token → Option ℕ
  | [], _ => none
  | a :: l, t => if a = t then some 0 else (lookupIndex l t).map (fun i => i + 1)

/-- Vocabulary with its full namespace of tokens and the derived stopless
    namespace, both as position-indexed token lists. -/
structure Vocab where
  full : List Token
  stopless : List Token

/-- Decode of a full-namespace index to its token, as
    vocab.get_token_from_index.  Out-of-range indices are not modelled
    faithfully (AllenNLP raises); the OOV token stands in as default. -/
def getTokenFromIndex (v : Vocab) (i : ℕ) : Token :=
  v.full.getD i DEFAULT_OOV_TOKEN

/-- Lookup of a token in the stopless namespace, as
    vocab.get_token_index(word, "stopless"): per the collaborator contract
    this returns the index of the OOV token when the word is absent. -/
def getTokenIndexStopless (v : Vocab) (w : Token) : ℕ :=
  if w ∈ v.stopless then idxOfTok v.stopless w else idxOfTok v.stopless DEFAULT_OOV_TOKEN

/-- Fresh padded namespace, as AllenNLP creates one on first insertion:
    padding at index 0, OOV at index 1. -/
def newPaddedNamespace : List Token :=
  [DEFAULT_PADDING_TOKEN, DEFAULT_OOV_TOKEN]

/-- Insertion into a namespace, as vocab.add_token_to_namespace: a no-op
    when the token is already present, else appended at the next index. -/
def addTokenToNamespace (ns : List Token) (t : Token) : List Token :=
  if t ∈ ns then ns else ns ++ [t]

/-- Stopless-namespace construction from TopicRnn init: when the stopless
    namespace already exists nothing happens; otherwise the construction
    asserts that padding and OOV occupy indices 0 and 1 of the full
    namespace, inserts every token of the full namespace that is not a
    stopword into a new stopless namespace, and persists the vocabulary
    (the returned flag records whether save_to_files ran).  The stopword
    list STOP_WORDS_2 lives outside src and is passed in abstractly. -/
def ensureStoplessNamespace (full : List Token) (stoplessNs : Option (List Token))
    (stop : List Token) : Except String (Vocab × Bool) :=
  match stoplessNs with
  | some ns => .ok (⟨full, ns⟩, false)
  | none =>
      if lookupIndex full DEFAULT_PADDING_TOKEN = some 0 ∧
          lookupIndex full DEFAULT_OOV_TOKEN = some 1 then
        .ok (⟨full,
          full.foldl (fun ns t => if t ∈ stop then ns else addTokenToNamespace ns t)
            newPaddedNamespace⟩, true)
      else
        .error "assertion failed: padding and OOV must sit at indices 0 and 1"

/-- Distinct elements of a list in first-occurrence order, matching the
    iteration order of a Python Counter built from the list. -/
def firstDedup : List Token → List Token
  | [] => []
  | a :: l => a :: firstDedup (l.filter (fun b => b != a))
termination_by l => l.length
decreasing_by
  simp only [List.length_cons]
  exact Nat.lt_succ_of_le (List.length_filter_le _ l)

/-- Frequency row for one example, from _compute_word_frequency_vector:
    decode the window to token strings, iterate the distinct words with
    their counts, and for each word present in the full vocabulary write
    count times the indicator that its stopless index is positive into
    the result at that stopless index. -/
def freqRow (v : Vocab) (row : List ℕ) : Vec :=
  let words := row.map (getTokenFromIndex v)
  (firstDedup words).foldl
    (fun res w =>
      if w ∈ v.full then
        let index := getTokenIndexStopless v w
        res.set index ((words.count w : ℚ) * (if 0 < index then 1 else 0))
      else res)
    (List.replicate v.stopless.length 0)

/-- Batched frequency vectors, as _compute_word_frequency_vector. -/
def computeWordFrequencyVector (v : Vocab) (frequency_tokens : List (List ℕ)) : Mat :=
  frequency_tokens.map (freqRow v)

/-- Stopword indicator mask of a token-id matrix, as _compute_stopword_mask:
    entry 1 when the decoded token is a stopword, else 0. -/
def computeStopwordMask (v : Vocab) (stop : List Token)
    (output_tokens : List (List ℕ)) : Mat :=
  output_tokens.map (fun r => r.map (fun i =>
    if getTokenFromIndex v i ∈ stop then (1 : ℚ) else 0))

/-- Padding mask of a token-id matrix, as util.get_text_field_mask:
    1 where the token id differs from the padding id 0. -/
def textFieldMask (tokens : List (List ℕ)) : Mat :=
  tokens.map (fun r => r.map (fun i => if i ≠ 0 then (1 : ℚ) else 0))

/-
  External numeric and neural primitives.  Everything the forward pass
  consumes from the surrounding framework is collected in one structure:
  transcendental scalar functions of the tensor library, the token
  embedder, the recurrent encoder, the two feed-forward networks, the
  framework loss functions, and the Gaussian noise stream (one draw per
  Monte Carlo sample index).
-/

structure Prims where
  exp : ℚ → ℚ
  log : ℚ → ℚ
  sqrt : ℚ → ℚ
  embedder : List (List ℕ) → Ten3
  rnn : Ten3 → Mat → Option Hidden → Ten3 × Hidden
  vae : Vec → Vec
  textToVec : Ten3 → Mat → Mat
  sentimentClassifier : Vec → Vec
  crossEntropy : Mat → List ℕ → ℚ
  seqCE : Ten3 → List (List ℕ) → Mat → ℚ
  noise : ℕ → Mat

/-- Logistic function, as torch.sigmoid. -/
def sigmoid (pr : Prims) (x : ℚ) : ℚ :=
  1 / (1 + pr.exp (-x))

/-- Row-wise softmax over the last dimension. -/
def softmaxRow (pr : Prims) (xs : Vec) : Vec :=
  let es := xs.map pr.exp
  es.map (fun e => e / es.sum)

/-- Pointwise binary cross-entropy with logits of one scalar logit x
    against one scalar target y. -/
def bcePoint (pr : Prims) (x y : ℚ) : ℚ :=
  -(y * pr.log (sigmoid pr x) + (1 - y) * pr.log (1 - sigmoid pr x))

/-- Weighted binary cross-entropy with logits and mean reduction, as
    nn.BCEWithLogitsLoss(weight) applied to (input, target): the sum of
    the weighted pointwise losses divided by the total element count of
    the input. -/
def bceWithLogitsWeightedMean (pr : Prims) (weight input target : Mat) : ℚ :=
  sumMat (zipWith3m (fun w x y => w * bcePoint pr x y) weight input target)
    / (numel input : ℚ)

/-- Masked binary cross-entropy averaged per valid position, written from
    the words of the spec: the sum of the mask-weighted pointwise losses
    divided by the number of valid (mask 1) positions, which for a 0-1
    mask is the sum of the mask. -/
def maskedBcePerValidPosition (pr : Prims) (mask input target : Mat) : ℚ :=
  sumMat (zipWith3m (fun w x y => w * bcePoint pr x y) mask input target)
    / sumMat mask

/-- Learnable state of the model that the forward pass reads. -/
structure Params where
  vocab : Vocab
  stop : List Token
  projW : Mat
  gamma : Vec
  beta : Mat
  muW : Mat
  muB : Vec
  sigmaW : Mat
  sigmaB : Vec

/-- Affine map of one of the nn.Linear heads. -/
def linear (w : Mat) (b : Vec) (x : Vec) : Vec :=
  List.zipWith (fun r c => r + c) (matvec w x) b

/-- Fixed Monte Carlo sample count, set as self.num_samples = 50. -/
def num_samples : ℕ := 50

/-- Stopless word frequencies of the frequency window, line 241. -/
def stoplessWordFrequencies (p : Params) (frequency_tokens : List (List ℕ)) : Mat :=
  computeWordFrequencyVector p.vocab frequency_tokens

/-- Inference-network image of the frequency vectors, line 242. -/
def mappedTermFrequencies (pr : Prims) (p : Params)
    (frequency_tokens : List (List ℕ)) : Mat :=
  (stoplessWordFrequencies p frequency_tokens).map pr.vae

/-- Variational mean, line 248. -/
def muOf (pr : Prims) (p : Params) (frequency_tokens : List (List ℕ)) : Mat :=
  (mappedTermFrequencies pr p frequency_tokens).map (linear p.muW p.muB)

/-- Variational log-variance, line 249. -/
def logSigmaSquaredOf (pr : Prims) (p : Params)
    (frequency_tokens : List (List ℕ)) : Mat :=
  (mappedTermFrequencies pr p frequency_tokens).map (linear p.sigmaW p.sigmaB)

/-- Closed-form KL divergence of lines 259-262: the elementwise tensor
    ones_like mu + log_sigma_squared - mu squared - exp log_sigma_squared,
    summed over all entries and divided by 2. -/
def klDivergence (pr : Prims) (mu ls : Mat) : ℚ :=
  sumMat (zipWith2d (fun m l => 1 + l - m ^ 2 - pr.exp l) mu ls) / 2

/-- KL term written from the words of the spec: one half times the sum of
    1 + log_sigma_squared - mu squared - exp log_sigma_squared over topic
    dimensions and batch. -/
def klClosedFormSpec (pr : Prims) (mu ls : Mat) : ℚ :=
  (1 / 2) * sumMat (zipWith2d (fun m l => 1 + l - m ^ 2 - pr.exp l) mu ls)

/-- Encoder output and updated hidden state of line 268: the embedded
    input and its padding mask through rnn_forward with the carried
    hidden state. -/
def encodedAndHidden (pr : Prims) (p : Params) (input_tokens : List (List ℕ))
    (hidden_state : Option Hidden) : Ten3 × Hidden :=
  pr.rnn (pr.embedder input_tokens) (textFieldMask input_tokens) hidden_state

/-- Vocabulary logits of line 272: the per-timestep linear projection of
    the encoded input. -/
def logitsOf (pr : Prims) (p : Params) (input_tokens : List (List ℕ))
    (hidden_state : Option Hidden) : Ten3 :=
  (encodedAndHidden pr p input_tokens hidden_state).1.map
    (fun steps => steps.map (matvec p.projW))

/-- Raw stopword scores of line 280: dot product of every encoded state
    with the stopword projection vector gamma. -/
def stopwordRawOf (pr : Prims) (p : Params) (input_tokens : List (List ℕ))
    (hidden_state : Option Hidden) : Mat :=
  (encodedAndHidden pr p input_tokens hidden_state).1.map
    (fun steps => steps.map (fun h => dot h p.gamma))

/-- Binary stop decisions of line 281: sigmoid of the raw score
    thresholded at one half. -/
def stopwordPredictionsOf (pr : Prims) (p : Params) (input_tokens : List (List ℕ))
    (hidden_state : Option Hidden) : List (List Bool) :=
  (stopwordRawOf pr p input_tokens hidden_state).map
    (fun r => r.map (fun x => decide (sigmoid pr x ≥ 1 / 2)))

/-- Stopword loss of lines 290-292: BCEWithLogitsLoss weighted by the
    output padding mask, on the raw stopword scores against the
    ground-truth stopword mask of the targets. -/
def stopwordLossOf (pr : Prims) (p : Params) (input_tokens target : List (List ℕ))
    (hidden_state : Option Hidden) : ℚ :=
  bceWithLogitsWeightedMean pr (textFieldMask target)
    (stopwordRawOf pr p input_tokens hidden_state)
    (computeStopwordMask p.vocab p.stop target)

/-- Reparameterized and softmax-normalized topic proportions of lines
    297-301 for Monte Carlo sample i. -/
def thetaOf (pr : Prims) (p : Params) (frequency_tokens : List (List ℕ))
    (i : ℕ) : Mat :=
  (zipWith3m (fun m l e => m + pr.sqrt (pr.exp l) * e)
      (muOf pr p frequency_tokens) (logSigmaSquaredOf pr p frequency_tokens)
      (pr.noise i)).map (softmaxRow pr)

/-- Topic additions of line 305: theta times beta, one vocab-size row per
    example. -/
def topicAdditionsOf (pr : Prims) (p : Params) (frequency_tokens : List (List ℕ))
    (i : ℕ) : Mat :=
  (thetaOf pr p frequency_tokens i).map (fun th => vecmat th p.beta)

/-- Gated topic additions of line 310: the topic addition row broadcast
    over time and multiplied by one minus the stop decision. -/
def gatedTopicAdditionsOf (pr : Prims) (p : Params)
    (frequency_tokens input_tokens : List (List ℕ))
    (hidden_state : Option Hidden) (i : ℕ) : Ten3 :=
  List.zipWith
    (fun predRow addRow =>
      predRow.map (fun pd => addRow.map (fun a => (1 - boolToQ pd) * a)))
    (stopwordPredictionsOf pr p input_tokens hidden_state)
    (topicAdditionsOf pr p frequency_tokens i)

/-- Cross entropy of one Monte Carlo sample, lines 313-315: the sequence
    cross entropy of the logits plus the gated topic additions against the
    targets under the output padding mask. -/
def sampleCrossEntropy (pr : Prims) (p : Params)
    (frequency_tokens input_tokens target : List (List ℕ))
    (hidden_state : Option Hidden) (i : ℕ) : ℚ :=
  pr.seqCE
    (addTen3 (logitsOf pr p input_tokens hidden_state)
      (gatedTopicAdditionsOf pr p frequency_tokens input_tokens hidden_state i))
    target (textFieldMask target)

/-- Sentiment branch of _classify_sentiment: sequence-to-vector encoding
    of the tokens, concatenation with mu, the feed-forward classifier, and
    the framework cross entropy against the labels. -/
def classifySentiment (pr : Prims) (p : Params) (tokens : List (List ℕ))
    (mu : Mat) (sentiment : List ℕ) : ℚ :=
  let embedded := pr.embedder tokens
  let mask := textFieldMask tokens
  let encoded := pr.textToVec embedded mask
  let features := List.zipWith (fun e m => e ++ m) encoded mu
  let logits := features.map pr.sentimentClassifier
  pr.crossEntropy logits sentiment

/-- Forward pass of TopicRnn.forward.  Presence of the optional inputs is
    modelled by Option; the assertion of line 232 is an error return.  The
    result is the scalar loss together with the hidden state the call
    returns: the fresh encoder state in the language-modeling branch, the
    carried one otherwise.  A sentiment branch without labels fails inside
    the framework loss and is modelled as an error as well.  The flag
    exclude_topic_additions is part of the signature (line 209). -/
def forward (pr : Prims) (p : Params)
    (input_tokens frequency_tokens : List (List ℕ))
    (target_tokens : Option (List (List ℕ)))
    (sentiment : Option (List ℕ))
    (hidden_state : Option Hidden)
    (exclude_topic_additions : Bool) : Except String (ℚ × Option Hidden) :=
  if target_tokens.isSome && sentiment.isSome then
    .error "Multiple target outputs is ambiguous."
  else
    match target_tokens with
    | some target =>
        let kl := klDivergence pr (muOf pr p frequency_tokens)
          (logSigmaSquaredOf pr p frequency_tokens)
        let stopword_loss := stopwordLossOf pr p input_tokens target hidden_state
        let aggregate := (List.range num_samples).foldl
          (fun acc i =>
            acc + sampleCrossEntropy pr p frequency_tokens input_tokens target
              hidden_state i) 0
        let averaged := aggregate / (num_samples : ℚ)
        .ok (-kl + averaged + stopword_loss,
          some (encodedAndHidden pr p input_tokens hidden_state).2)
    | none =>
        match sentiment with
        | some s =>
            .ok (classifySentiment pr p input_tokens (muOf pr p frequency_tokens) s,
              hidden_state)
        | none => .error "neither target tokens nor sentiment supplied"

/-
  Concrete instances used to evaluate the development on closed inputs.
-/

/-- Small concrete vocabulary: full namespace of four tokens with padding
    and OOV at indices 0 and 1, one stopword (the token the) absent from
    the stopless namespace, and one content token. -/
def exampleVocab : Vocab :=
  ⟨["@@PADDING@@", "@@UNKNOWN@@", "the", "cat"],
   ["@@PADDING@@", "@@UNKNOWN@@", "cat"]⟩

/-- Concrete primitives with constant exponential 1, so that the logistic
    function is one half everywhere and every stop decision fires. -/
def examplePrims : Prims where
  exp := fun _ => 1
  log := fun x => x
  sqrt := fun x => x
  embedder := fun toks => toks.map (fun r => r.map (fun t => [(t : ℚ)]))
  rnn := fun emb _ _ => (emb, [[1]])
  vae := fun v => [v.sum]
  textToVec := fun emb _ => emb.map (fun steps => [(steps.length : ℚ)])
  sentimentClassifier := fun v => v
  crossEntropy := fun logits _ => sumMat logits
  seqCE := fun lg _ _ => (lg.map sumMat).sum
  noise := fun _ => [[1]]

/-- Concrete primitives with constant exponential 2, so that the logistic
    function is one third everywhere and no stop decision fires. -/
def examplePrims2 : Prims :=
  { examplePrims with exp := fun _ => 2 }

/-- Concrete one-dimensional learnable state over exampleVocab. -/
def exampleParams : Params where
  vocab := exampleVocab
  stop := ["the"]
  projW := [[1]]
  gamma := [1]
  beta := [[3]]
  muW := [[1]]
  muB := [0]
  sigmaW := [[1]]
  sigmaB := [0]

/-
  Helper lemmas about lists.
-/

lemma getD_set_ne (l : List ℚ) (i j : ℕ) (x : ℚ) (hij : i ≠ j) :
    (l.set i x).getD j 0 = l.getD j 0 := by
  induction l generalizing i j with
  | nil => simp
  | cons a t ih =>
      cases i with
      | zero =>
          cases j with
          | zero => exact absurd rfl hij
          | succ m => simp [List.set]
      | succ n =>
          cases j with
          | zero => simp [List.set]
          | succ m =>
              simp only [List.set, List.getD_cons_succ]
              exact ih n m (fun hexact => hij (by rw [hexact]))

lemma getD_set_self_or (l : List ℚ) (i : ℕ) (x : ℚ) :
    (l.set i x).getD i 0 = x ∨ (l.set i x).getD i 0 = l.getD i 0 := by
  induction l generalizing i with
  | nil => right; simp
  | cons a t ih =>
      cases i with
      | zero => left; simp [List.set]
      | succ n =>
          simp only [List.set, List.getD_cons_succ]
          exact ih n

lemma getD_replicate_zero (n j : ℕ) :
    (List.replicate n (0 : ℚ)).getD j 0 = 0 := by
  induction n generalizing j with
  | zero => simp
  | succ m ih =>
      cases j with
      | zero => simp [List.replicate]
      | succ k => simp only [List.replicate, List.getD_cons_succ]; exact ih k

lemma zipWith_replicate_same {α β γ : Type} (g : α → β → γ) (n : ℕ) (x : α) (y : β) :
    List.zipWith g (List.replicate n x) (List.replicate n y) =
      List.replicate n (g x y) := by
  induction n with
  | zero => rfl
  | succ m ih => simp [List.replicate, ih]

lemma sum_replicate_zero (n : ℕ) : (List.replicate n (0 : ℚ)).sum = 0 := by
  induction n with
  | zero => rfl
  | succ m ih => simp [List.replicate, ih]

/-- Left fold of successive additions over an index range equals the
    finite sum. -/
lemma foldl_add_range (f : ℕ → ℚ) (n : ℕ) :
    (List.range n).foldl (fun acc i => acc + f i) 0 = ∑ i ∈ Finset.range n, f i := by
  induction n with
  | zero => rfl
  | succ m ih =>
      rw [List.range_succ, List.foldl_append, ih, Finset.sum_range_succ]
      rfl

lemma getD_idxOfTok (ns : List Token) (w : Token) (d : Token) (hw : w ∈ ns) :
    ns.getD (idxOfTok ns w) d = w := by
  induction ns with
  | nil => cases hw
  | cons a l ih =>
      by_cases ha : a = w
      · simp [idxOfTok, ha]
      · have hwl : w ∈ l := by
          cases hw with
          | head => exact absurd rfl ha
          | tail _ h => exact h
        rw [idxOfTok, if_neg ha, List.getD_cons_succ]
        exact ih hwl

lemma idxOfTok_injOn (ns : List Token) (w₁ w₂ : Token)
    (h₁ : w₁ ∈ ns) (h₂ : w₂ ∈ ns)
    (heq : idxOfTok ns w₁ = idxOfTok ns w₂) : w₁ = w₂ := by
  have e₁ := getD_idxOfTok ns w₁ DEFAULT_OOV_TOKEN h₁
  have e₂ := getD_idxOfTok ns w₂ DEFAULT_OOV_TOKEN h₂
  rw [heq] at e₁
  rw [e₁] at e₂
  exact e₂

lemma mem_of_mem_firstDedup (l : List Token) (w : Token)
    (hw : w ∈ firstDedup l) : w ∈ l := by
  induction l using firstDedup.induct with
  | case1 => simp [firstDedup] at hw
  | case2 a t ih =>
      rw [firstDedup] at hw
      cases hw with
      | head => exact List.mem_cons_self _ _
      | tail _ h =>
          exact List.mem_cons_of_mem _ (List.mem_of_mem_filter (ih h))

/-
  Generic analysis of the overwrite fold underlying freqRow: the fold
  walks a list of words and, for every word satisfying a guard, writes a
  value into the accumulator at the index of the word.
-/

section FoldWriter

variable (P : Token → Prop) [DecidablePred P] (idx : Token → ℕ) (val : Token → ℚ)

/-- One step of the overwrite fold of freqRow, abstracted over the guard,
    the index map and the written value. -/
def writeStep (res : List ℚ) (w : Token) : List ℚ :=
  if P w then res.set (idx w) (val w) else res

lemma foldl_writeStep_or (l : List Token) (res : List ℚ) (j : ℕ) (u : ℚ)
    (hval : ∀ w ∈ l, P w → idx w = j → val w = u) :
    (l.foldl (writeStep P idx val) res).getD j 0 = u ∨
      (l.foldl (writeStep P idx val) res).getD j 0 = res.getD j 0 := by
  induction l generalizing res with
  | nil => right; rfl
  | cons w t ih =>
      have hval' : ∀ x ∈ t, P x → idx x = j → val x = u := by
        intro x hx; exact hval x (List.mem_cons_of_mem w hx)
      rw [List.foldl_cons]
      by_cases hP : P w
      · by_cases hj : idx w = j
        · have hu : val w = u := hval w (List.mem_cons_self w t) hP hj
          have hstep : writeStep P idx val res w = res.set j u := by
            rw [writeStep, if_pos hP, hj, hu]
          rw [hstep]
          rcases ih (res.set j u) hval' with h | h
          · left; exact h
          · rcases getD_set_self_or res j u with h2 | h2
            · left; rw [h, h2]
            · right; rw [h, h2]
        · have hstep : (writeStep P idx val res w).getD j 0 = res.getD j 0 := by
            rw [writeStep, if_pos hP]
            exact getD_set_ne res (idx w) j (val w) hj
          rcases ih (writeStep P idx val res w) hval' with h | h
          · left; exact h
          · right; rw [h, hstep]
      · have hstep : writeStep P idx val res w = res := by
          rw [writeStep, if_neg hP]
        rw [hstep]
        exact ih res hval'

lemma foldl_writeStep_exists (l : List Token) (res : List ℚ) (j : ℕ)
    (hne : (l.foldl (writeStep P idx val) res).getD j 0 ≠ res.getD j 0) :
    ∃ w, w ∈ l ∧ P w ∧ idx w = j := by
  induction l generalizing res with
  | nil => exact absurd rfl hne
  | cons w t ih =>
      rw [List.foldl_cons] at hne
      by_cases hP : P w
      · by_cases hj : idx w = j
        · exact ⟨w, List.mem_cons_self w t, hP, hj⟩
        · have hstep : (writeStep P idx val res w).getD j 0 = res.getD j 0 := by
            rw [writeStep, if_pos hP]
            exact getD_set_ne res (idx w) j (val w) hj
          rw [← hstep] at hne
          obtain ⟨x, hx, hPx, hjx⟩ := ih (writeStep P idx val res w) hne
          exact ⟨x, List.mem_cons_of_mem w hx, hPx, hjx⟩
      · have hstep : writeStep P idx val res w = res := by
          rw [writeStep, if_neg hP]
        rw [hstep] at hne
        obtain ⟨x, hx, hPx, hjx⟩ := ih res hne
        exact ⟨x, List.mem_cons_of_mem w hx, hPx, hjx⟩

end FoldWriter

/-- Unfolding of freqRow as an instance of the generic overwrite fold. -/
lemma freqRow_eq_foldl (v : Vocab) (row : List ℕ) :
    freqRow v row =
      (firstDedup (row.map (getTokenFromIndex v))).foldl
        (writeStep (fun w => w ∈ v.full) (getTokenIndexStopless v)
          (fun w => ((row.map (getTokenFromIndex v)).count w : ℚ) *
            (if 0 < getTokenIndexStopless v w then 1 else 0)))
        (List.replicate v.stopless.length 0) := by
  rfl

/-- Entry of one frequency row at the padding index 0 is always 0. -/
lemma freqRow_getD_zero (v : Vocab) (row : List ℕ) :
    (freqRow v row).getD 0 0 = 0 := by
  rw [freqRow_eq_foldl]
  have h := foldl_writeStep_or (fun w => w ∈ v.full) (getTokenIndexStopless v)
    (fun w => ((row.map (getTokenFromIndex v)).count w : ℚ) *
      (if 0 < getTokenIndexStopless v w then 1 else 0))
    (firstDedup (row.map (getTokenFromIndex v)))
    (List.replicate v.stopless.length 0) 0 0 ?_
  · rcases h with h | h
    · rw [h]
    · rw [h, getD_replicate_zero]
  · intro w _ _ hj
    simp only []
    rw [hj]
    norm_num

/-
  Pointwise gating lemmas for the stopword gate.
-/

lemma map_gate_true_getD (a : Vec) (vIdx : ℕ) :
    (a.map (fun x => (1 - boolToQ true) * x)).getD vIdx 0 = 0 := by
  induction a generalizing vIdx with
  | nil => rfl
  | cons x t ih =>
      cases vIdx with
      | zero => simp [boolToQ]
      | succ k => simpa using ih k

lemma map_gate_row_getD (p : List Bool) (a : Vec) (t vIdx : ℕ)
    (hp : p.getD t false = true) :
    ((p.map (fun pd => a.map (fun x => (1 - boolToQ pd) * x))).getD t []).getD vIdx 0
      = 0 := by
  induction p generalizing t with
  | nil => simp at hp
  | cons q qs ih =>
      cases t with
      | zero =>
          have hq : q = true := hp
          subst hq
          simpa using map_gate_true_getD a vIdx
      | succ k =>
          simp only [List.getD_cons_succ] at hp
          simpa using ih k hp

lemma zipWith_gate_getD (preds : List (List Bool)) (adds : Mat) (b t vIdx : ℕ)
    (hp : (preds.getD b []).getD t false = true) :
    (((List.zipWith
        (fun predRow addRow =>
          predRow.map (fun pd => addRow.map (fun a => (1 - boolToQ pd) * a)))
        preds adds).getD b []).getD t []).getD vIdx 0 = 0 := by
  induction preds generalizing adds b with
  | nil => simp at hp
  | cons p ps ih =>
      cases adds with
      | nil => simp
      | cons a as =>
          cases b with
          | zero =>
              have hp0 : p.getD t false = true := hp
              simpa using map_gate_row_getD p a t vIdx hp0
          | succ k =>
              have hpk : (ps.getD k []).getD t false = true := hp
              simpa using ih as k hpk

/-- Folding namespace insertion over distinct tokens none of which are in
    the accumulator appends exactly the non-stopwords in order. -/
lemma foldl_addToken_filter (stop : List Token) (l : List Token) (acc : List Token)
    (hnd : l.Nodup) (hacc : ∀ t ∈ l, t ∉ acc) :
    l.foldl (fun ns t => if t ∈ stop then ns else addTokenToNamespace ns t) acc =
      acc ++ l.filter (fun t => decide (t ∉ stop)) := by
  induction l generalizing acc with
  | nil => simp
  | cons a t ih =>
      have hndt : t.Nodup := (List.nodup_cons.mp hnd).2
      have hat : a ∉ t := (List.nodup_cons.mp hnd).1
      rw [List.foldl_cons]
      by_cases hs : a ∈ stop
      · rw [if_pos hs, ih acc hndt (fun x hx => hacc x (List.mem_cons_of_mem a hx))]
        rw [List.filter_cons]
        simp [hs]
      · rw [if_neg hs]
        have hana : a ∉ acc := hacc a (List.mem_cons_self a t)
        rw [addTokenToNamespace, if_neg hana]
        rw [ih (acc ++ [a]) hndt ?_]
        · rw [List.filter_cons]
          simp [hs]
        · intro x hx
          rw [List.mem_append]
          push_neg
          refine ⟨hacc x (List.mem_cons_of_mem a hx), ?_⟩
          simp only [List.mem_singleton]
          intro hxa
          exact hat (hxa ▸ hx)

/-
  Claim theorems.
-/

/-- C1: in the language-modeling branch the returned scalar loss equals
    minus the KL divergence plus the cross entropy accumulated over
    num_samples Monte Carlo samples divided by that sample count, plus the
    stopword loss; and the sample count is 50. -/
theorem c1_language_model_loss (pr : Prims) (p : Params)
    (input_tokens frequency_tokens target : List (List ℕ))
    (hidden_state : Option Hidden) (flag : Bool) :
    forward pr p input_tokens frequency_tokens (some target) none hidden_state flag =
      .ok
        (-(klDivergence pr (muOf pr p frequency_tokens)
            (logSigmaSquaredOf pr p frequency_tokens))
          + (∑ i ∈ Finset.range num_samples,
              sampleCrossEntropy pr p frequency_tokens input_tokens target
                hidden_state i) / (num_samples : ℚ)
          + stopwordLossOf pr p input_tokens target hidden_state,
        some (encodedAndHidden pr p input_tokens hidden_state).2) ∧
    num_samples = 50 := by
  constructor
  · show Except.ok
      (-(klDivergence pr (muOf pr p frequency_tokens)
          (logSigmaSquaredOf pr p frequency_tokens))
        + ((List.range num_samples).foldl
            (fun acc i =>
              acc + sampleCrossEntropy pr p frequency_tokens input_tokens target
                hidden_state i) 0) / (num_samples : ℚ)
        + stopwordLossOf pr p input_tokens target hidden_state,
      some (encodedAndHidden pr p input_tokens hidden_state).2) = _
    rw [foldl_add_range]
  · rfl

/-- C2: the KL term follows the closed form of the spec, and at mu zero
    and log-variance zero (any equal shape) the KL term is zero, given
    that the exponential primitive sends 0 to 1. -/
theorem c2_kl_closed_form (pr : Prims) (mu ls : Mat) (B K : ℕ)
    (hexp : pr.exp 0 = 1) :
    klDivergence pr mu ls = klClosedFormSpec pr mu ls ∧
    klDivergence pr (List.replicate B (List.replicate K 0))
      (List.replicate B (List.replicate K 0)) = 0 := by
  constructor
  · rw [klDivergence, klClosedFormSpec]
    ring
  · rw [klDivergence, zipWith2d, zipWith_replicate_same, zipWith_replicate_same]
    have hf : (1 : ℚ) + 0 - 0 ^ 2 - pr.exp 0 = 0 := by
      rw [hexp]; ring
    rw [hf, sumMat, List.map_replicate, sum_replicate_zero, sum_replicate_zero]
    norm_num

/-- Witness for C2 at a concrete primitive with exp 0 = 1 and shape 2 by 3. -/
theorem c2_kl_closed_form_witness :
    examplePrims.exp 0 = 1 ∧
    klDivergence examplePrims (List.replicate 2 (List.replicate 3 0))
      (List.replicate 2 (List.replicate 3 0)) = 0 :=
  ⟨rfl, (c2_kl_closed_form examplePrims [] [] 2 3 rfl).2⟩

/-- C3: a forward call supplying both target tokens and sentiment fails
    with the usage error of the assertion and enters neither branch. -/
theorem c3_both_targets_fatal (pr : Prims) (p : Params)
    (input_tokens frequency_tokens target : List (List ℕ)) (s : List ℕ)
    (hidden_state : Option Hidden) (flag : Bool) :
    forward pr p input_tokens frequency_tokens (some target) (some s) hidden_state
      flag = .error "Multiple target outputs is ambiguous." :=
  rfl

/-- C10: in the sentiment branch the forward call returns the carried
    hidden state exactly as passed in, including the case of no hidden
    state at all. -/
theorem c10_sentiment_branch_hidden_unchanged (pr : Prims) (p : Params)
    (input_tokens frequency_tokens : List (List ℕ)) (s : List ℕ)
    (hidden_state : Option Hidden) (flag : Bool) :
    (forward pr p input_tokens frequency_tokens none (some s) hidden_state
        flag).map (fun r => r.2) = Except.ok hidden_state :=
  rfl

/-- C4: every row of the computed frequency vector has entry exactly 0 at
    the padding index 0, no matter how many padding tokens the window
    holds. -/
theorem c4_padding_entry_zero (v : Vocab) (rows : List (List ℕ)) (i : ℕ) :
    ((computeWordFrequencyVector v rows).getD i []).getD 0 0 = 0 := by
  rw [computeWordFrequencyVector]
  induction rows generalizing i with
  | nil => simp
  | cons r t ih =>
      cases i with
      | zero => simpa using freqRow_getD_zero v r
      | succ k => simpa using ih k

/-- C8: at every timestep whose stop decision is true, the gated topic
    addition is exactly zero at every vocabulary position, for every
    Monte Carlo sample. -/
theorem c8_gated_zero_at_stop (pr : Prims) (p : Params)
    (frequency_tokens input_tokens : List (List ℕ)) (hidden_state : Option Hidden)
    (i b t vIdx : ℕ)
    (hpred : ((stopwordPredictionsOf pr p input_tokens hidden_state).getD b
        []).getD t false = true) :
    (((gatedTopicAdditionsOf pr p frequency_tokens input_tokens hidden_state
        i).getD b []).getD t []).getD vIdx 0 = 0 := by
  rw [gatedTopicAdditionsOf]
  exact zipWith_gate_getD (stopwordPredictionsOf pr p input_tokens hidden_state)
    (topicAdditionsOf pr p frequency_tokens i) b t vIdx hpred

/-- Witness for C8: a concrete call in which the stop decision at batch 0
    and timestep 0 is true, and the gated topic addition there is 0. -/
theorem c8_gated_zero_at_stop_witness :
    ((stopwordPredictionsOf examplePrims exampleParams [[1]] none).getD 0
        []).getD 0 false = true ∧
    (((gatedTopicAdditionsOf examplePrims exampleParams [[3]] [[1]] none
        0).getD 0 []).getD 0 []).getD 0 0 = 0 := by
  have hpred : ((stopwordPredictionsOf examplePrims exampleParams [[1]]
      none).getD 0 []).getD 0 false = true := by
    norm_num [stopwordPredictionsOf, stopwordRawOf, encodedAndHidden,
      examplePrims, exampleParams, sigmoid, dot, textFieldMask]
  exact ⟨hpred,
    c8_gated_zero_at_stop examplePrims exampleParams [[3]] [[1]] none 0 0 0 0
      hpred⟩

/-- C6: the flag exclude_topic_additions has no effect at all on the
    forward computation, although the topic pathway is live: at a concrete
    input the gated topic addition entering the cross-entropy logits is 3,
    not 0.  The claim that the flag suppresses topic injection therefore
    fails against the code: the parameter is accepted and ignored. -/
theorem c6_exclude_topic_additions_ignored :
    (∀ (pr : Prims) (p : Params) (input_tokens frequency_tokens : List (List ℕ))
        (target_tokens : Option (List (List ℕ))) (sentiment : Option (List ℕ))
        (hidden_state : Option Hidden),
      forward pr p input_tokens frequency_tokens target_tokens sentiment
          hidden_state true =
        forward pr p input_tokens frequency_tokens target_tokens sentiment
          hidden_state false) ∧
    (((gatedTopicAdditionsOf examplePrims2 exampleParams [[3]] [[1]] none
        0).getD 0 []).getD 0 []).getD 0 0 = 3 := by
  constructor
  · intro pr p input_tokens frequency_tokens target_tokens sentiment hidden_state
    rfl
  · norm_num [gatedTopicAdditionsOf, stopwordPredictionsOf, stopwordRawOf,
      encodedAndHidden, topicAdditionsOf, thetaOf, muOf, logSigmaSquaredOf,
      mappedTermFrequencies, stoplessWordFrequencies, computeWordFrequencyVector,
      freqRow, firstDedup, getTokenFromIndex, getTokenIndexStopless, idxOfTok,
      exampleVocab, examplePrims2, examplePrims, exampleParams, softmaxRow,
      vecmat, linear, matvec, dot, sigmoid, textFieldMask, zipWith3m, zipWith3v,
      boolToQ]

/-- Counterexample for C7: at a concrete call with one padded position the
    stopword loss of the code differs from the masked binary cross-entropy
    averaged per valid position that the claim describes: the code divides
    the masked sum by the total element count, not by the valid count. -/
theorem c7_stopword_loss_counterexample :
    stopwordLossOf examplePrims exampleParams [[1, 1]] [[2, 0]] none ≠
      maskedBcePerValidPosition examplePrims (textFieldMask [[2, 0]])
        (stopwordRawOf examplePrims exampleParams [[1, 1]] none)
        (computeStopwordMask exampleParams.vocab exampleParams.stop [[2, 0]]) := by
  norm_num [stopwordLossOf, bceWithLogitsWeightedMean, maskedBcePerValidPosition,
    stopwordRawOf, encodedAndHidden, computeStopwordMask, getTokenFromIndex,
    exampleVocab, examplePrims, exampleParams, bcePoint, sigmoid, dot,
    textFieldMask, zipWith3m, zipWith3v, sumMat, numel]

/-- C7 amended: the stopword loss is the mask-weighted binary cross
    entropy on the raw stopword logits against the ground-truth stopword
    labels, averaged over all positions including padded ones; it equals
    the per-valid-position average scaled by the ratio of valid positions
    to total positions. -/
theorem c7_stopword_loss_amended (pr : Prims) (p : Params)
    (input_tokens target : List (List ℕ)) (hidden_state : Option Hidden)
    (hmask : sumMat (textFieldMask target) ≠ 0) :
    stopwordLossOf pr p input_tokens target hidden_state =
      maskedBcePerValidPosition pr (textFieldMask target)
          (stopwordRawOf pr p input_tokens hidden_state)
          (computeStopwordMask p.vocab p.stop target)
        * (sumMat (textFieldMask target)
            / (numel (stopwordRawOf pr p input_tokens hidden_state) : ℚ)) := by
  rw [stopwordLossOf, bceWithLogitsWeightedMean, maskedBcePerValidPosition]
  rw [div_mul_div_comm]
  rw [mul_comm
    (sumMat (zipWith3m (fun w x y => w * bcePoint pr x y) (textFieldMask target)
      (stopwordRawOf pr p input_tokens hidden_state)
      (computeStopwordMask p.vocab p.stop target)))
    (sumMat (textFieldMask target))]
  rw [mul_div_mul_left _ _ hmask]

/-- Witness for C7 amended at a concrete call with one valid and one
    padded position. -/
theorem c7_stopword_loss_amended_witness :
    sumMat (textFieldMask [[2, 0]]) ≠ 0 ∧
    stopwordLossOf examplePrims exampleParams [[1, 1]] [[2, 0]] none =
      maskedBcePerValidPosition examplePrims (textFieldMask [[2, 0]])
          (stopwordRawOf examplePrims exampleParams [[1, 1]] none)
          (computeStopwordMask exampleParams.vocab exampleParams.stop [[2, 0]])
        * (sumMat (textFieldMask [[2, 0]])
            / (numel (stopwordRawOf examplePrims exampleParams [[1, 1]] none) : ℚ)) := by
  have hmask : sumMat (textFieldMask [[2, 0]]) ≠ 0 := by
    norm_num [textFieldMask, sumMat]
  exact ⟨hmask,
    c7_stopword_loss_amended examplePrims exampleParams [[1, 1]] [[2, 0]] none
      hmask⟩

/-- Counterexample for C5: a window holding only the stopword the, which
    is in the full vocabulary but not in the stopless namespace, still
    produces a nonzero frequency entry (at the OOV index 1), so not every
    nonzero entry comes from a token of the stopless namespace. -/
theorem c5_counterexample :
    ¬ (∀ (v : Vocab) (row : List ℕ) (j : ℕ),
        (freqRow v row).getD j 0 ≠ 0 →
        ∃ w, w ∈ row.map (getTokenFromIndex v) ∧ w ∈ v.stopless) := by
  intro hcl
  have h1 : (freqRow exampleVocab [2]).getD 1 0 = 1 := by
    simp [freqRow, firstDedup, getTokenFromIndex, getTokenIndexStopless,
      idxOfTok, exampleVocab, DEFAULT_OOV_TOKEN, DEFAULT_PADDING_TOKEN]
  obtain ⟨w, hwmem, hwstop⟩ := hcl exampleVocab [2] 1 (by rw [h1]; norm_num)
  have hw : w = "the" := by
    simpa [getTokenFromIndex, exampleVocab] using hwmem
  rw [hw] at hwstop
  simp [exampleVocab] at hwstop

/-- C5 amended: every nonzero entry of a frequency row at an index other
    than the index the OOV token takes in the stopless namespace is the
    count of a token of the window that does belong to the stopless
    namespace and sits at that stopless index; tokens outside the stopless
    namespace can only reach the OOV entry. -/
theorem c5_amended_stopless_only (v : Vocab) (row : List ℕ) (j : ℕ)
    (hj : j ≠ idxOfTok v.stopless DEFAULT_OOV_TOKEN)
    (hnz : (freqRow v row).getD j 0 ≠ 0) :
    ∃ w, w ∈ row.map (getTokenFromIndex v) ∧ w ∈ v.stopless ∧
      idxOfTok v.stopless w = j ∧
      (freqRow v row).getD j 0 = ((row.map (getTokenFromIndex v)).count w : ℚ) := by
  have hinit : (List.replicate v.stopless.length (0 : ℚ)).getD j 0 = 0 :=
    getD_replicate_zero _ _
  have hne : ((firstDedup (row.map (getTokenFromIndex v))).foldl
      (writeStep (fun w => w ∈ v.full) (getTokenIndexStopless v)
        (fun w => ((row.map (getTokenFromIndex v)).count w : ℚ) *
          (if 0 < getTokenIndexStopless v w then 1 else 0)))
      (List.replicate v.stopless.length 0)).getD j 0 ≠
      (List.replicate v.stopless.length (0 : ℚ)).getD j 0 := by
    rw [← freqRow_eq_foldl, hinit]; exact hnz
  obtain ⟨w, hwdedup, hwfull, hwj⟩ := foldl_writeStep_exists _ _ _ _ _ _ hne
  have hwstop : w ∈ v.stopless := by
    by_contra hns
    rw [getTokenIndexStopless, if_neg hns] at hwj
    exact hj hwj.symm
  have hidx : idxOfTok v.stopless w = j := by
    rw [getTokenIndexStopless, if_pos hwstop] at hwj
    exact hwj
  have hall : ∀ x ∈ firstDedup (row.map (getTokenFromIndex v)), x ∈ v.full →
      getTokenIndexStopless v x = j →
      ((row.map (getTokenFromIndex v)).count x : ℚ) *
        (if 0 < getTokenIndexStopless v x then 1 else 0) =
      ((row.map (getTokenFromIndex v)).count w : ℚ) *
        (if 0 < j then 1 else 0) := by
    intro x _ _ hxj
    have hxstop : x ∈ v.stopless := by
      by_contra hns
      rw [getTokenIndexStopless, if_neg hns] at hxj
      exact hj hxj.symm
    have hxidx : idxOfTok v.stopless x = j := by
      rw [getTokenIndexStopless, if_pos hxstop] at hxj
      exact hxj
    have hxw : x = w :=
      idxOfTok_injOn v.stopless x w hxstop hwstop (by rw [hxidx, hidx])
    rw [hxj, hxw]
  have hor := foldl_writeStep_or (fun w => w ∈ v.full) (getTokenIndexStopless v)
    (fun w => ((row.map (getTokenFromIndex v)).count w : ℚ) *
      (if 0 < getTokenIndexStopless v w then 1 else 0))
    (firstDedup (row.map (getTokenFromIndex v)))
    (List.replicate v.stopless.length 0) j
    (((row.map (getTokenFromIndex v)).count w : ℚ) * (if 0 < j then 1 else 0))
    hall
  rw [← freqRow_eq_foldl] at hor
  rcases hor with hv | hv
  · by_cases hj0 : 0 < j
    · refine ⟨w, mem_of_mem_firstDedup _ _ hwdedup, hwstop, hidx, ?_⟩
      rw [hv, if_pos hj0, mul_one]
    · refine absurd ?_ hnz
      rw [hv, if_neg hj0, mul_zero]
  · rw [hv, hinit] at hnz
    exact absurd rfl hnz

/-- Witness for C5 amended: a window holding only the content token cat,
    whose stopless index is 2; the entry there is its count 1. -/
theorem c5_amended_stopless_only_witness :
    ((2 : ℕ) ≠ idxOfTok exampleVocab.stopless DEFAULT_OOV_TOKEN) ∧
    (freqRow exampleVocab [3]).getD 2 0 ≠ 0 ∧
    (∃ w, w ∈ [3].map (getTokenFromIndex exampleVocab) ∧
      w ∈ exampleVocab.stopless ∧
      idxOfTok exampleVocab.stopless w = 2 ∧
      (freqRow exampleVocab [3]).getD 2 0 =
        (([3].map (getTokenFromIndex exampleVocab)).count w : ℚ)) := by
  have hj : (2 : ℕ) ≠ idxOfTok exampleVocab.stopless DEFAULT_OOV_TOKEN := by
    decide
  have hnz : (freqRow exampleVocab [3]).getD 2 0 ≠ 0 := by
    simp [freqRow, firstDedup, getTokenFromIndex, getTokenIndexStopless,
      idxOfTok, exampleVocab, DEFAULT_OOV_TOKEN, DEFAULT_PADDING_TOKEN]
  exact ⟨hj, hnz, c5_amended_stopless_only exampleVocab [3] 2 hj hnz⟩

/-- C9: stopless-namespace construction is idempotent: with an existing
    stopless namespace the vocabulary is returned unchanged and nothing is
    persisted; without one, when padding and OOV sit at indices 0 and 1 of
    a duplicate-free full namespace and are not stopwords, the stopless
    namespace becomes exactly the non-stopword tokens of the full
    namespace in first-seen order and the vocabulary is persisted; and a
    full namespace violating the padding and OOV position assertion makes
    the construction abort. -/
theorem c9_ensure_stopless_namespace (full rest stop ns : List Token)
    (hfull : full = DEFAULT_PADDING_TOKEN :: DEFAULT_OOV_TOKEN :: rest)
    (hnodup : full.Nodup)
    (hpad : DEFAULT_PADDING_TOKEN ∉ stop)
    (hoov : DEFAULT_OOV_TOKEN ∉ stop) :
    ensureStoplessNamespace full (some ns) stop = .ok (⟨full, ns⟩, false) ∧
    ensureStoplessNamespace full none stop =
      .ok (⟨full, full.filter (fun t => decide (t ∉ stop))⟩, true) ∧
    (∀ full2 : List Token,
      ¬ (lookupIndex full2 DEFAULT_PADDING_TOKEN = some 0 ∧
          lookupIndex full2 DEFAULT_OOV_TOKEN = some 1) →
      ensureStoplessNamespace full2 none stop =
        .error "assertion failed: padding and OOV must sit at indices 0 and 1") := by
  refine ⟨rfl, ?_, ?_⟩
  · subst hfull
    have hne : DEFAULT_PADDING_TOKEN ≠ DEFAULT_OOV_TOKEN := by decide
    have hcheck : lookupIndex
        (DEFAULT_PADDING_TOKEN :: DEFAULT_OOV_TOKEN :: rest)
          DEFAULT_PADDING_TOKEN = some 0 ∧
        lookupIndex (DEFAULT_PADDING_TOKEN :: DEFAULT_OOV_TOKEN :: rest)
          DEFAULT_OOV_TOKEN = some 1 := by
      constructor
      · rw [lookupIndex, if_pos rfl]
      · rw [lookupIndex, if_neg hne, lookupIndex, if_pos rfl]
        rfl
    rw [ensureStoplessNamespace]
    rw [if_pos hcheck]
    have hpadmem : DEFAULT_PADDING_TOKEN ∈ newPaddedNamespace := by
      rw [newPaddedNamespace]; exact List.mem_cons_self _ _
    have hoovmem : DEFAULT_OOV_TOKEN ∈ newPaddedNamespace := by
      rw [newPaddedNamespace]
      exact List.mem_cons_of_mem _ (List.mem_cons_self _ _)
    rw [List.foldl_cons, if_neg hpad, addTokenToNamespace, if_pos hpadmem]
    rw [List.foldl_cons, if_neg hoov, addTokenToNamespace, if_pos hoovmem]
    have hnd : rest.Nodup :=
      ((List.nodup_cons.mp (List.nodup_cons.mp hnodup).2).2)
    have hpadrest : DEFAULT_PADDING_TOKEN ∉ rest := by
      intro hmem
      exact (List.nodup_cons.mp hnodup).1 (List.mem_cons_of_mem _ hmem)
    have hoovrest : DEFAULT_OOV_TOKEN ∉ rest :=
      (List.nodup_cons.mp (List.nodup_cons.mp hnodup).2).1
    rw [foldl_addToken_filter stop rest newPaddedNamespace hnd ?_]
    · rw [List.filter_cons, List.filter_cons]
      simp only [hpad, hoov, decide_not, decide_eq_true_eq, not_false_iff,
        if_true, newPaddedNamespace]
      simp [hpad, hoov]
    · intro x hx
      rw [newPaddedNamespace]
      intro hmem
      rcases List.mem_cons.mp hmem with h1 | h2
      · exact hpadrest (h1 ▸ hx)
      · rw [List.mem_singleton] at h2
        exact hoovrest (h2 ▸ hx)
  · intro full2 hfail
    rw [ensureStoplessNamespace, if_neg hfail]

/-- Witness for C9 at a concrete four-token vocabulary with one stopword. -/
theorem c9_ensure_stopless_namespace_witness :
    ensureStoplessNamespace ["@@PADDING@@", "@@UNKNOWN@@", "the", "cat"] none
      ["the"] =
      .ok (⟨["@@PADDING@@", "@@UNKNOWN@@", "the", "cat"],
        ["@@PADDING@@", "@@UNKNOWN@@", "cat"]⟩, true) := by
  have h := (c9_ensure_stopless_namespace
    ["@@PADDING@@", "@@UNKNOWN@@", "the", "cat"] ["the", "cat"] ["the"] []
    rfl (by decide) (by decide) (by decide)).2.1
  rw [h]
  rfl

end TopicRnnModel
